import Mathlib

/-!
Verification of `scripts/compress_images.py`: a directory synchronizer with an
adaptive per-image recompression loop.  The Python code is shallowly embedded:

* image pixel data is abstracted away; a decoded image is its Pillow metadata
  `(format, mode, width, height)`, and the encoder is an abstract size
  function `Enc` (for a single `compress_image` call the encoded byte size is
  a deterministic function of the encoding format, the JPEG quality and the
  current dimensions, because every resize is deterministic in the original
  pixels);
* Python floats (`0.9`, `0.85`, `MAX_DIM / max(w, h)`) are embedded with exact
  natural-number arithmetic: `int(x * 0.9)` becomes `x * 9 / 10`,
  `int(q * 0.85)` becomes `q * 85 / 100`, and the up-front rescale
  `int(w * (MAX_DIM / m))` becomes `w * MAX_DIM / m` (floor division);
* paths are `(directory components, stem, suffix)`; the filesystem is a finite
  list of `(path, bytes)` pairs plus a list of existing directories, with the
  byte content of a file abstracted to a `Nat`;
* the `while True` loop of `compress_image` is embedded with explicit fuel
  (`loopFuel`); `loopMeasure` is a decreasing measure, and termination is the
  theorem that `loopMeasure s + 1` units of fuel always suffice.
-/

namespace CompressImages

set_option maxRecDepth 100000

/-- MAX_DIM = 1600 in the script. -/
def MAX_DIM : Nat := 1600

/-- JPEG_QUALITY = 82 in the script. -/
def JPEG_QUALITY : Nat := 82

/-- MIN_JPEG_QUALITY = 45 in the script. -/
def MIN_JPEG_QUALITY : Nat := 45

/-- SIZE_LIMIT = 500 * 1024 bytes in the script. -/
def SIZE_LIMIT : Nat := 500 * 1024

/-- MIN_DIM = 640 in the script.  (SCALE_STEP = 0.9 is embedded as `* 9 / 10`.) -/
def MIN_DIM : Nat := 640

/-- The two encoding formats the loop can use (`fmt` in the script). -/
inductive Fmt
  | JPEG
  | PNG
deriving DecidableEq

/-- A path: directory components, file stem, and suffix (with leading dot,
or `""` for none).  `Path.with_suffix` replaces only the `suffix` field. -/
structure FPath where
  dirs : List String
  stem : String
  suffix : String
deriving DecidableEq

/-- A decoded source image: Pillow `format` attribute (`none` models Python
`None`, which `convert`/`resize` results carry), `mode`, and pixel size. -/
structure SrcImage where
  format : Option String
  mode : String
  w : Nat
  h : Nat
deriving DecidableEq

/-- Abstract encoder: byte size of the in-memory encode of the current image.
`jpeg quality w h` models `save(buffer, "JPEG", quality=..., optimize=True)`;
`png w h` models `save(buffer, "PNG", optimize=True, compress_level=9)`
(PNG encoding has no quality knob). -/
structure Enc where
  jpeg : Nat → Nat → Nat → Nat
  png : Nat → Nat → Nat

/-- Mutable state of the `while True:` loop in `compress_image`:
`current_img` size, `fmt`, `quality` and the current `dst` suffix
(the only part of `dst` the loop mutates, via `with_suffix(".jpg")`). -/
structure LoopState where
  w : Nat
  h : Nat
  fmt : Fmt
  quality : Nat
  dstSuffix : String
deriving DecidableEq

/-- What one run of the loop produces: the written byte count, whether the
write came from the best-effort branch, and the final image state. -/
structure LoopResult where
  size : Nat
  bestEffort : Bool
  w : Nat
  h : Nat
  fmt : Fmt
  quality : Nat
  dstSuffix : String
deriving DecidableEq

/-- Byte size of the encode attempt at state `s` (`buffer.tell()`). -/
def encodeSize (e : Enc) (s : LoopState) : Nat :=
  match s.fmt with
  | Fmt.JPEG => e.jpeg s.quality s.w s.h
  | Fmt.PNG => e.png s.w s.h

/-- Outcome of one iteration of the loop body: either a final written result
(`break`) or the state for the next iteration (`continue` / fallthrough). -/
inductive Step
  | done : LoopResult → Step
  | next : LoopState → Step
deriving DecidableEq

/-- One iteration of the `while True:` body of `compress_image`:
encode; commit if within the limit; else switch PNG to JPEG, else lower JPEG
quality while above the floor, else write best-effort at the dimension floor,
else downscale by `SCALE_STEP`. -/
def loopStep (e : Enc) (s : LoopState) : Step :=
  if encodeSize e s ≤ SIZE_LIMIT then
    Step.done ⟨encodeSize e s, false, s.w, s.h, s.fmt, s.quality, s.dstSuffix⟩
  else if s.fmt = Fmt.PNG then
    Step.next ⟨s.w, s.h, Fmt.JPEG, JPEG_QUALITY, ".jpg"⟩
  else if s.fmt = Fmt.JPEG ∧ MIN_JPEG_QUALITY < s.quality then
    Step.next ⟨s.w, s.h, s.fmt, max MIN_JPEG_QUALITY (s.quality * 85 / 100), s.dstSuffix⟩
  else if max s.w s.h ≤ MIN_DIM then
    Step.done ⟨encodeSize e s, true, s.w, s.h, s.fmt, s.quality, s.dstSuffix⟩
  else
    Step.next ⟨s.w * 9 / 10, s.h * 9 / 10, s.fmt, s.quality, s.dstSuffix⟩

/-- Decreasing measure for the loop: a PNG state costs one switch (counted
above any JPEG quality), after which quality and then the longest side only
shrink. -/
def loopMeasure (s : LoopState) : Nat :=
  (match s.fmt with
   | Fmt.PNG => JPEG_QUALITY + 1
   | Fmt.JPEG => s.quality) + max s.w s.h

/-- Fuelled interpreter for the `while True:` loop. -/
def loopFuel (e : Enc) : Nat → LoopState → Option LoopResult
  | 0, _ => none
  | n + 1, s =>
    match loopStep e s with
    | Step.done r => some r
    | Step.next s' => loopFuel e n s'

/-- The loop, run with enough fuel (`loopMeasure s + 1` always suffices; the
default is never reached, see `runLoop_spec`). -/
def runLoop (e : Enc) (s : LoopState) : LoopResult :=
  (loopFuel e (loopMeasure s + 1) s).getD ⟨0, true, s.w, s.h, s.fmt, s.quality, s.dstSuffix⟩

/-- The state after one non-final iteration (identity on final states);
used to talk about what "the next encode attempt" sees. -/
def stepState (e : Enc) (s : LoopState) : LoopState :=
  match loopStep e s with
  | Step.next s' => s'
  | Step.done _ => s

/-- Python `str.lower()` on a suffix (character-wise ASCII lowercasing). -/
def lowerStr (s : String) : String :=
  String.mk (s.data.map Char.toLower)

/-- Suffixes routed to JPEG encoding (`[".jpg", ".jpeg"]`). -/
def jpegExts : List String := [".jpg", ".jpeg"]

/-- Suffixes routed to `compress_image` (`{".png", ".jpg", ".jpeg"}`). -/
def rasterExts : List String := [".png", ".jpg", ".jpeg"]

/-- Width after the up-front downscale:
`scale = min(1.0, MAX_DIM / max(w, h))`, resized only when `scale < 1.0`,
i.e. when `MAX_DIM < max(w, h)`. -/
def initW (img : SrcImage) : Nat :=
  if MAX_DIM < max img.w img.h then img.w * MAX_DIM / max img.w img.h else img.w

/-- Height after the up-front downscale (see `initW`). -/
def initH (img : SrcImage) : Nat :=
  if MAX_DIM < max img.w img.h then img.h * MAX_DIM / max img.w img.h else img.h

/-- Mode normalization: `img.convert("RGB") if img.mode in ("P", "RGBA") else img`. -/
def normMode (img : SrcImage) : String :=
  if img.mode = "P" ∨ img.mode = "RGBA" then "RGB" else img.mode

/-- The `format` attribute of `img` at the `dst.with_suffix` decision point:
`convert` and `resize` both return images whose `format` is `None`. -/
def fmtAttr (img : SrcImage) : Option String :=
  if (img.mode = "P" ∨ img.mode = "RGBA") ∨ MAX_DIM < max img.w img.h then none
  else img.format

/-- The starting `dst`:
`dst.with_suffix(".jpg") if img.format == "JPEG" or src.suffix.lower() in [".jpg", ".jpeg"] else dst`. -/
def dstAfterChoice (img : SrcImage) (src dst : FPath) : FPath :=
  if fmtAttr img = some "JPEG" ∨ lowerStr src.suffix ∈ jpegExts then
    ⟨dst.dirs, dst.stem, ".jpg"⟩
  else dst

/-- The starting format:
`fmt = "JPEG" if dst.suffix.lower() in [".jpg", ".jpeg"] else "PNG"`. -/
def startFmt (img : SrcImage) (src dst : FPath) : Fmt :=
  if lowerStr (dstAfterChoice img src dst).suffix ∈ jpegExts then Fmt.JPEG else Fmt.PNG

/-- The loop state on entry: initial dimensions, starting format,
`quality = JPEG_QUALITY`, and the chosen destination suffix. -/
def startState (img : SrcImage) (src dst : FPath) : LoopState :=
  ⟨initW img, initH img, startFmt img src dst, JPEG_QUALITY, (dstAfterChoice img src dst).suffix⟩

/-- Result of one `compress_image(src, dst)` call: the path actually written
(the loop may have rewritten the suffix), the written byte count, and the
final image state. -/
structure CompressResult where
  written : FPath
  size : Nat
  bestEffort : Bool
  w : Nat
  h : Nat
  fmt : Fmt
  quality : Nat
  mode : String
deriving DecidableEq

/-- The whole of `compress_image`, for a source image decoded as `img`. -/
def compress_image (e : Enc) (img : SrcImage) (src dst : FPath) : CompressResult :=
  ⟨⟨(dstAfterChoice img src dst).dirs, (dstAfterChoice img src dst).stem,
    (runLoop e (startState img src dst)).dstSuffix⟩,
   (runLoop e (startState img src dst)).size,
   (runLoop e (startState img src dst)).bestEffort,
   (runLoop e (startState img src dst)).w,
   (runLoop e (startState img src dst)).h,
   (runLoop e (startState img src dst)).fmt,
   (runLoop e (startState img src dst)).quality,
   normMode img⟩

/-- Component-list prefix test (our own, to model path containment). -/
def underDir : List String → List String → Bool
  | [], _ => true
  | _ :: _, [] => false
  | a :: d, b :: p => decide (a = b) && underDir d p

/-- Full path components of a file. -/
def FPath.components (p : FPath) : List String :=
  p.dirs ++ [p.stem ++ p.suffix]

/-- `src.is_relative_to(out_dir)` on the full path. -/
def isRelTo (base : List String) (p : FPath) : Bool :=
  underDir base p.components

/-- The filesystem: files (path with abstract byte content) and the set of
existing directories. -/
structure FS where
  files : List (FPath × Nat)
  dirs : List (List String)
deriving DecidableEq

/-- Association lookup on the file list. -/
def lookupList : List (FPath × Nat) → FPath → Option Nat
  | [], _ => none
  | (q, c) :: rest, p => if q = p then some c else lookupList rest p

/-- Content of the file at `p`, if any. -/
def FS.lookup (fs : FS) (p : FPath) : Option Nat :=
  lookupList fs.files p

/-- Remove every entry at path `p`. -/
def removeFile : List (FPath × Nat) → FPath → List (FPath × Nat)
  | [], _ => []
  | (q, c) :: rest, p => if q = p then removeFile rest p else (q, c) :: removeFile rest p

/-- Create or overwrite the file at `p` with content `c`. -/
def FS.write (fs : FS) (p : FPath) (c : Nat) : FS :=
  ⟨(p, c) :: removeFile fs.files p, fs.dirs⟩

/-- Whether directory `d` exists. -/
def FS.dirExists (fs : FS) (d : List String) : Bool :=
  fs.dirs.contains d

/-- The codec capability: decoding a raster file's bytes yields its metadata
and its (content-determined) encoder size behaviour.  Models Pillow. -/
structure Pillow where
  dec : Nat → SrcImage
  enc : Nat → Enc

/-- Console output of a run. -/
inductive Msg
  | skipped : String → Msg
  | optimized : String → Msg
deriving DecidableEq

/-- `copy_through`: byte-identical copy to `dst`. -/
def copy_through (fs : FS) (srcBytes : Nat) (dst : FPath) : FS :=
  FS.write fs dst srcBytes

/-- `clear_output`: if `out_dir` exists, unlink every file under it. -/
def clear_output (outDir : List String) (fs : FS) : FS :=
  if fs.dirExists outDir then
    ⟨fs.files.filter (fun f => !(underDir outDir f.1.dirs)), fs.dirs⟩
  else fs

/-- The body of the `for src in src_dir.rglob("*")` loop for one file:
skip outputs nested under `out_dir`, mirror the relative path, and route to
`compress_image` or `copy_through` on the lowercased suffix. -/
def processFile (o : Pillow) (srcDir outDir : List String) (fs : FS) (pc : FPath × Nat) : FS :=
  if isRelTo outDir pc.1 then fs
  else if lowerStr pc.1.suffix ∈ rasterExts then
    FS.write fs
      (compress_image (o.enc pc.2) (o.dec pc.2) pc.1
        ⟨outDir ++ pc.1.dirs.drop srcDir.length, pc.1.stem, pc.1.suffix⟩).written
      (compress_image (o.enc pc.2) (o.dec pc.2) pc.1
        ⟨outDir ++ pc.1.dirs.drop srcDir.length, pc.1.stem, pc.1.suffix⟩).size
  else
    copy_through fs pc.2 ⟨outDir ++ pc.1.dirs.drop srcDir.length, pc.1.stem, pc.1.suffix⟩

/-- The destination path one source file ends up at (the suffix can differ
from the mirrored path when `compress_image` rewrites it to `".jpg"`). -/
def writtenPath (o : Pillow) (srcDir outDir : List String) (p : FPath) (c : Nat) : FPath :=
  if lowerStr p.suffix ∈ rasterExts then
    (compress_image (o.enc c) (o.dec c) p
      ⟨outDir ++ p.dirs.drop srcDir.length, p.stem, p.suffix⟩).written
  else ⟨outDir ++ p.dirs.drop srcDir.length, p.stem, p.suffix⟩

/-- The byte count written for one source file. -/
def writtenBytes (o : Pillow) (srcDir outDir : List String) (p : FPath) (c : Nat) : Nat :=
  if lowerStr p.suffix ∈ rasterExts then
    (compress_image (o.enc c) (o.dec c) p
      ⟨outDir ++ p.dirs.drop srcDir.length, p.stem, p.suffix⟩).size
  else c

/-- `process_directory`: skip (with a notice) when the source root is
missing; otherwise clear the destination, create it, and process every file
under the source root. -/
def process_directory (o : Pillow) (fs : FS) (srcDir outDir : List String) (label : String) :
    FS × List Msg :=
  if fs.dirExists srcDir = false then (fs, [Msg.skipped label])
  else
    (((clear_output outDir fs).files.filter (fun f => underDir srcDir f.1.dirs)).foldl
        (processFile o srcDir outDir)
        ⟨(clear_output outDir fs).files, outDir :: (clear_output outDir fs).dirs⟩,
     [Msg.optimized label])

/-- `SRC_DIR = ROOT / "images" / "original"` (components relative to `ROOT`). -/
def SRC_DIR : List String := ["images", "original"]

/-- `OUT_DIR = ROOT / "images" / "optimized"`. -/
def OUT_DIR : List String := ["images", "optimized"]

/-- `PROJECTS_SRC_DIR = ROOT / "projects" / "uncompressed-media"`. -/
def PROJECTS_SRC_DIR : List String := ["projects", "uncompressed-media"]

/-- `PROJECTS_OUT_DIR = ROOT / "projects" / "media"`. -/
def PROJECTS_OUT_DIR : List String := ["projects", "media"]

/-- `main()`: process both fixed targets in order, collecting the output. -/
def main (o : Pillow) (fs : FS) : FS × List Msg :=
  ((process_directory o (process_directory o fs SRC_DIR OUT_DIR "site images").1
      PROJECTS_SRC_DIR PROJECTS_OUT_DIR "project media").1,
   (process_directory o fs SRC_DIR OUT_DIR "site images").2 ++
     (process_directory o (process_directory o fs SRC_DIR OUT_DIR "site images").1
        PROJECTS_SRC_DIR PROJECTS_OUT_DIR "project media").2)

/-- Encoder that always produces a tiny (1 byte) result. -/
def smallEnc : Enc :=
  ⟨fun _ _ _ => 1, fun _ _ => 1⟩

/-- Encoder that always overshoots the size ceiling by one byte. -/
def bigEnc : Enc :=
  ⟨fun _ _ _ => SIZE_LIMIT + 1, fun _ _ => SIZE_LIMIT + 1⟩

/-- A plain 800 x 600 JPEG source. -/
def img0 : SrcImage := ⟨some "JPEG", "RGB", 800, 600⟩

/-- A 641 x 641 JPEG source: one pixel above the dimension floor. -/
def img641 : SrcImage := ⟨some "JPEG", "RGB", 641, 641⟩

/-- A grayscale-plus-alpha PNG source (Pillow mode "LA"). -/
def imgLA : SrcImage := ⟨some "PNG", "LA", 100, 100⟩

/-- A palette PNG source (Pillow mode "P"). -/
def imgP : SrcImage := ⟨some "PNG", "P", 100, 100⟩

/-- A grayscale PNG source (Pillow mode "L"). -/
def imgL : SrcImage := ⟨some "PNG", "L", 100, 100⟩

/-- A concrete JPEG source path. -/
def srcJ : FPath := ⟨["s"], "a", ".jpg"⟩

/-- Its mirrored destination path. -/
def dstJ : FPath := ⟨["o"], "a", ".jpg"⟩

/-- A concrete PNG source path. -/
def srcPng : FPath := ⟨["s"], "a", ".png"⟩

/-- Its mirrored destination path. -/
def dstPng : FPath := ⟨["o"], "a", ".png"⟩

/-- A JPEG loop state sitting at the quality floor, above the dimension floor. -/
def jSt : LoopState := ⟨800, 600, Fmt.JPEG, 45, ".jpg"⟩

/-- A PNG loop state. -/
def pngSt : LoopState := ⟨900, 900, Fmt.PNG, 82, ".png"⟩

/-- A concrete source root. -/
def srcD : List String := ["s"]

/-- A concrete destination root. -/
def outD : List String := ["o"]

/-- A concrete `.jpeg` file under the source root. -/
def pA : FPath := ⟨["s"], "a", ".jpeg"⟩

/-- A concrete `.svg` file under the source root. -/
def pSvg : FPath := ⟨["s"], "v", ".svg"⟩

/-- A one-file filesystem containing `pA`. -/
def fsA : FS := ⟨[(pA, 5)], [["s"]]⟩

/-- An empty filesystem. -/
def emptyFS : FS := ⟨[], []⟩

/-- A codec oracle: every raster file decodes to a small 100 x 80 JPEG that
encodes to one byte. -/
def oracleA : Pillow :=
  ⟨fun _ => ⟨some "JPEG", "RGB", 100, 80⟩, fun _ => smallEnc⟩

/-- Pillow modes that use a palette or carry an alpha channel, following the
spec wording "uses a palette or includes transparency"; this is the spec-side
predicate the code's `("P", "RGBA")` test is compared against. -/
def paletteOrAlphaModes : List String := ["P", "PA", "RGBA", "LA", "RGBa", "La"]

theorem max_mul_div (a b k n : Nat) : max (a * k / n) (b * k / n) = max a b * k / n := by
  rcases Nat.le_total a b with hab | hab
  · rw [max_eq_right hab, max_eq_right (Nat.div_le_div_right (Nat.mul_le_mul hab (Nat.le_refl k)))]
  · rw [max_eq_left hab, max_eq_left (Nat.div_le_div_right (Nat.mul_le_mul hab (Nat.le_refl k)))]

theorem loopStep_next_inv (e : Enc) (s s' : LoopState) (h : loopStep e s = Step.next s') :
    s'.w ≤ s.w ∧ s'.h ≤ s.h ∧ loopMeasure s' < loopMeasure s ∧
    (s.fmt = Fmt.JPEG → s'.fmt = Fmt.JPEG ∧ s'.dstSuffix = s.dstSuffix) ∧
    (s'.dstSuffix = s.dstSuffix ∨ s'.dstSuffix = ".jpg") ∧
    (max s'.w s'.h = max s.w s.h ∨
      (MIN_DIM < max s.w s.h ∧ max s'.w s'.h = max s.w s.h * 9 / 10)) := by
  unfold loopStep at h
  by_cases c1 : encodeSize e s ≤ SIZE_LIMIT
  · rw [if_pos c1] at h; exact Step.noConfusion h
  rw [if_neg c1] at h
  by_cases c2 : s.fmt = Fmt.PNG
  · rw [if_pos c2] at h
    injection h with h'
    subst h'
    refine ⟨Nat.le_refl _, Nat.le_refl _, ?_, ?_, Or.inr rfl, Or.inl rfl⟩
    · simp only [loopMeasure, c2]
      omega
    · intro hf
      rw [hf] at c2
      exact Fmt.noConfusion c2
  rw [if_neg c2] at h
  have cJ : s.fmt = Fmt.JPEG := by
    cases hx : s.fmt
    · rfl
    · exact absurd hx c2
  by_cases c3 : s.fmt = Fmt.JPEG ∧ MIN_JPEG_QUALITY < s.quality
  · rw [if_pos c3] at h
    injection h with h'
    subst h'
    have hq : max MIN_JPEG_QUALITY (s.quality * 85 / 100) < s.quality := by
      have h45 : MIN_JPEG_QUALITY = 45 := rfl
      have hc := c3.2
      rw [h45] at hc ⊢
      have hdiv : s.quality * 85 / 100 < s.quality := by omega
      exact max_lt (by omega) hdiv
    refine ⟨Nat.le_refl _, Nat.le_refl _, ?_, fun hf => ⟨hf, rfl⟩, Or.inl rfl, Or.inl rfl⟩
    simp only [loopMeasure, cJ]
    omega
  rw [if_neg c3] at h
  by_cases c4 : max s.w s.h ≤ MIN_DIM
  · rw [if_pos c4] at h; exact Step.noConfusion h
  rw [if_neg c4] at h
  injection h with h'
  subst h'
  have h640 : MIN_DIM = 640 := rfl
  rw [h640] at c4
  have hmd : max (s.w * 9 / 10) (s.h * 9 / 10) = max s.w s.h * 9 / 10 :=
    max_mul_div s.w s.h 9 10
  refine ⟨?_, ?_, ?_, fun hf => ⟨hf, rfl⟩, Or.inl rfl, ?_⟩
  · show s.w * 9 / 10 ≤ s.w
    omega
  · show s.h * 9 / 10 ≤ s.h
    omega
  · show loopMeasure ⟨s.w * 9 / 10, s.h * 9 / 10, s.fmt, s.quality, s.dstSuffix⟩ < loopMeasure s
    simp only [loopMeasure, cJ]
    rw [hmd]
    omega
  · refine Or.inr ⟨?_, hmd⟩
    rw [h640]
    omega

theorem loopStep_done_inv (e : Enc) (s : LoopState) (r : LoopResult)
    (h : loopStep e s = Step.done r) :
    r.w = s.w ∧ r.h = s.h ∧ r.fmt = s.fmt ∧ r.quality = s.quality ∧
    r.dstSuffix = s.dstSuffix ∧
    (r.bestEffort = false → r.size ≤ SIZE_LIMIT) ∧
    (r.bestEffort = true → max s.w s.h ≤ MIN_DIM ∧ SIZE_LIMIT < r.size) := by
  unfold loopStep at h
  by_cases c1 : encodeSize e s ≤ SIZE_LIMIT
  · rw [if_pos c1] at h
    injection h with h'
    subst h'
    exact ⟨rfl, rfl, rfl, rfl, rfl, fun _ => c1, fun hb => Bool.noConfusion hb⟩
  rw [if_neg c1] at h
  by_cases c2 : s.fmt = Fmt.PNG
  · rw [if_pos c2] at h; exact Step.noConfusion h
  rw [if_neg c2] at h
  by_cases c3 : s.fmt = Fmt.JPEG ∧ MIN_JPEG_QUALITY < s.quality
  · rw [if_pos c3] at h; exact Step.noConfusion h
  rw [if_neg c3] at h
  by_cases c4 : max s.w s.h ≤ MIN_DIM
  · rw [if_pos c4] at h
    injection h with h'
    subst h'
    exact ⟨rfl, rfl, rfl, rfl, rfl, fun hb => Bool.noConfusion hb,
      fun _ => ⟨c4, not_le.mp c1⟩⟩
  · rw [if_neg c4] at h; exact Step.noConfusion h

theorem loopFuel_zero (e : Enc) (s : LoopState) : loopFuel e 0 s = none := rfl

theorem loopFuel_succ (e : Enc) (n : Nat) (s : LoopState) :
    loopFuel e (n + 1) s =
      match loopStep e s with
      | Step.done r => some r
      | Step.next s' => loopFuel e n s' := rfl

theorem loopFuel_inv (e : Enc) (P : LoopState → Prop) (Q : LoopResult → Prop)
    (hnext : ∀ s s', P s → loopStep e s = Step.next s' → P s')
    (hdone : ∀ s r, P s → loopStep e s = Step.done r → Q r) :
    ∀ (fuel : Nat) (s : LoopState) (r : LoopResult), P s → loopFuel e fuel s = some r → Q r := by
  intro fuel
  induction fuel with
  | zero =>
    intro s r _ h
    exact Option.noConfusion h
  | succ n ih =>
    intro s r hP h
    rw [loopFuel_succ] at h
    cases hs : loopStep e s with
    | done r0 =>
      rw [hs] at h
      injection h with h'
      subst h'
      exact hdone s r0 hP hs
    | next s' =>
      rw [hs] at h
      exact ih s' r (hnext s s' hP hs) h

theorem loopFuel_some (e : Enc) :
    ∀ (fuel : Nat) (s : LoopState), loopMeasure s < fuel → ∃ r, loopFuel e fuel s = some r := by
  intro fuel
  induction fuel with
  | zero => intro s h; exact absurd h (Nat.not_lt_zero _)
  | succ n ih =>
    intro s h
    rw [loopFuel_succ]
    cases hs : loopStep e s with
    | done r => exact ⟨r, rfl⟩
    | next s' =>
      have hm := (loopStep_next_inv e s s' hs).2.2.1
      obtain ⟨r, hr⟩ := ih s' (by omega)
      exact ⟨r, hr⟩

theorem runLoop_spec (e : Enc) (s : LoopState) :
    loopFuel e (loopMeasure s + 1) s = some (runLoop e s) := by
  obtain ⟨r, hr⟩ := loopFuel_some e (loopMeasure s + 1) s (Nat.lt_succ_self _)
  rw [hr]
  unfold runLoop
  rw [hr]
  rfl

theorem loopFuel_size (e : Enc) (fuel : Nat) (s : LoopState) (r : LoopResult)
    (h : loopFuel e fuel s = some r) :
    (r.bestEffort = false → r.size ≤ SIZE_LIMIT) ∧
    (r.bestEffort = true → max r.w r.h ≤ MIN_DIM) := by
  refine loopFuel_inv e (fun _ => True)
    (fun r' => (r'.bestEffort = false → r'.size ≤ SIZE_LIMIT) ∧
      (r'.bestEffort = true → max r'.w r'.h ≤ MIN_DIM))
    (fun _ _ _ _ => trivial) ?_ fuel s r trivial h
  intro t r' _ hd
  obtain ⟨hw, hh, _, _, _, h5, h6⟩ := loopStep_done_inv e t r' hd
  exact ⟨h5, fun hb => by rw [hw, hh]; exact (h6 hb).1⟩

theorem loopFuel_dims (e : Enc) (fuel : Nat) (s : LoopState) (r : LoopResult)
    (h : loopFuel e fuel s = some r) : r.w ≤ s.w ∧ r.h ≤ s.h := by
  refine loopFuel_inv e (fun t => t.w ≤ s.w ∧ t.h ≤ s.h)
    (fun r' => r'.w ≤ s.w ∧ r'.h ≤ s.h) ?_ ?_ fuel s r
    ⟨Nat.le_refl _, Nat.le_refl _⟩ h
  · intro t t' hP hn
    obtain ⟨h1, h2, _⟩ := loopStep_next_inv e t t' hn
    exact ⟨Nat.le_trans h1 hP.1, Nat.le_trans h2 hP.2⟩
  · intro t r' hP hd
    obtain ⟨hw, hh, _⟩ := loopStep_done_inv e t r' hd
    exact ⟨by rw [hw]; exact hP.1, by rw [hh]; exact hP.2⟩

theorem loopFuel_floor (e : Enc) (fuel : Nat) (s : LoopState) (r : LoopResult)
    (h : loopFuel e fuel s = some r) (hs : MIN_DIM * 9 / 10 ≤ max s.w s.h) :
    MIN_DIM * 9 / 10 ≤ max r.w r.h := by
  refine loopFuel_inv e (fun t => MIN_DIM * 9 / 10 ≤ max t.w t.h)
    (fun r' => MIN_DIM * 9 / 10 ≤ max r'.w r'.h) ?_ ?_ fuel s r hs h
  · intro t t' hP hn
    rcases (loopStep_next_inv e t t' hn).2.2.2.2.2 with heq | ⟨hgt, heq⟩
    · rw [heq]; exact hP
    · rw [heq]
      have h640 : MIN_DIM = 640 := rfl
      rw [h640] at hgt ⊢
      omega
  · intro t r' hP hd
    obtain ⟨hw, hh, _⟩ := loopStep_done_inv e t r' hd
    rw [hw, hh]; exact hP

theorem loopFuel_fmt (e : Enc) (fuel : Nat) (s : LoopState) (r : LoopResult)
    (h : loopFuel e fuel s = some r) (hs : s.fmt = Fmt.JPEG) : r.fmt = Fmt.JPEG := by
  refine loopFuel_inv e (fun t => t.fmt = Fmt.JPEG) (fun r' => r'.fmt = Fmt.JPEG)
    ?_ ?_ fuel s r hs h
  · intro t t' hP hn
    exact ((loopStep_next_inv e t t' hn).2.2.2.1 hP).1
  · intro t r' hP hd
    rw [(loopStep_done_inv e t r' hd).2.2.1]; exact hP

theorem loopFuel_dstSuffix (e : Enc) (fuel : Nat) (s : LoopState) (r : LoopResult)
    (h : loopFuel e fuel s = some r) :
    r.dstSuffix = s.dstSuffix ∨ r.dstSuffix = ".jpg" := by
  refine loopFuel_inv e (fun t => t.dstSuffix = s.dstSuffix ∨ t.dstSuffix = ".jpg")
    (fun r' => r'.dstSuffix = s.dstSuffix ∨ r'.dstSuffix = ".jpg") ?_ ?_
    fuel s r (Or.inl rfl) h
  · intro t t' hP hn
    rcases (loopStep_next_inv e t t' hn).2.2.2.2.1 with he | he
    · rw [he]; exact hP
    · exact Or.inr he
  · intro t r' hP hd
    rw [(loopStep_done_inv e t r' hd).2.2.2.2.1]; exact hP

theorem init_max_le (img : SrcImage) : max (initW img) (initH img) ≤ MAX_DIM := by
  unfold initW initH
  by_cases h : MAX_DIM < max img.w img.h
  · rw [if_pos h, if_pos h, max_mul_div,
      Nat.mul_div_cancel_left MAX_DIM (Nat.lt_of_le_of_lt (Nat.zero_le _) h)]
  · rw [if_neg h, if_neg h]
    exact not_lt.mp h

theorem init_max_eq (img : SrcImage) (h : MAX_DIM < max img.w img.h) :
    max (initW img) (initH img) = MAX_DIM := by
  unfold initW initH
  rw [if_pos h, if_pos h, max_mul_div,
    Nat.mul_div_cancel_left MAX_DIM (Nat.lt_of_le_of_lt (Nat.zero_le _) h)]

theorem init_max_ge (img : SrcImage) (h : MIN_DIM ≤ max img.w img.h) :
    MIN_DIM ≤ max (initW img) (initH img) := by
  by_cases hr : MAX_DIM < max img.w img.h
  · rw [init_max_eq img hr]
    decide
  · unfold initW initH
    rw [if_neg hr, if_neg hr]
    exact h

/-- C1: for every raster input the byte size `compress_image` writes is at
most `SIZE_LIMIT`, unless the write came from the best-effort branch, which
fires only with the longest side at or below the dimension floor. -/
theorem compress_image_size_limit : ∀ (e : Enc) (img : SrcImage) (src dst : FPath),
    ((compress_image e img src dst).bestEffort = false →
      (compress_image e img src dst).size ≤ SIZE_LIMIT) ∧
    ((compress_image e img src dst).bestEffort = true →
      max (compress_image e img src dst).w (compress_image e img src dst).h ≤ MIN_DIM) := by
  intro e img src dst
  exact loopFuel_size e (loopMeasure (startState img src dst) + 1) (startState img src dst)
    (runLoop e (startState img src dst)) (runLoop_spec e (startState img src dst))

/-- C1 witness at a concrete input. -/
theorem compress_image_size_limit_witness :
    (compress_image smallEnc img0 srcJ dstJ).bestEffort = false ∧
    (compress_image smallEnc img0 srcJ dstJ).size ≤ SIZE_LIMIT := by
  refine ⟨by decide, ?_⟩
  exact (compress_image_size_limit smallEnc img0 srcJ dstJ).1 (by decide)

/-- C6: the output longest side never exceeds `MAX_DIM`: the up-front
downscale caps it at `MAX_DIM` and the loop never increases a dimension. -/
theorem compress_image_max_dim : ∀ (e : Enc) (img : SrcImage) (src dst : FPath),
    max (compress_image e img src dst).w (compress_image e img src dst).h ≤ MAX_DIM ∧
    (compress_image e img src dst).w ≤ initW img ∧
    (compress_image e img src dst).h ≤ initH img := by
  intro e img src dst
  have hd := loopFuel_dims e (loopMeasure (startState img src dst) + 1) (startState img src dst)
    (runLoop e (startState img src dst)) (runLoop_spec e (startState img src dst))
  refine ⟨?_, hd.1, hd.2⟩
  exact Nat.le_trans (max_le_max hd.1 hd.2) (init_max_le img)

/-- C2 counterexample: a 641-pixel-square JPEG that never fits the size
ceiling is written with longest side 576, strictly below `MIN_DIM`, even
though its input longest side was at least `MIN_DIM`. -/
theorem dim_floor_cex :
    MIN_DIM ≤ max img641.w img641.h ∧
    max (compress_image bigEnc img641 srcJ dstJ).w
      (compress_image bigEnc img641 srcJ dstJ).h < MIN_DIM := by decide

/-- C2 amended: the loop stops downscaling once the longest side is at most
`MIN_DIM`, so a single 10 percent step can land just below the floor but the
output longest side is always at least `MIN_DIM * 9 / 10` (= 576) whenever
the input longest side was at least `MIN_DIM`. -/
theorem compress_image_dim_floor : ∀ (e : Enc) (img : SrcImage) (src dst : FPath),
    MIN_DIM ≤ max img.w img.h →
    MIN_DIM * 9 / 10 ≤
      max (compress_image e img src dst).w (compress_image e img src dst).h := by
  intro e img src dst h
  have h0 : MIN_DIM * 9 / 10 ≤ max (startState img src dst).w (startState img src dst).h := by
    have hge := init_max_ge img h
    have h640 : MIN_DIM = 640 := rfl
    show MIN_DIM * 9 / 10 ≤ max (initW img) (initH img)
    rw [h640] at hge ⊢
    omega
  exact loopFuel_floor e (loopMeasure (startState img src dst) + 1) (startState img src dst)
    (runLoop e (startState img src dst)) (runLoop_spec e (startState img src dst)) h0

/-- C2 amended witness at a concrete input. -/
theorem compress_image_dim_floor_witness :
    MIN_DIM ≤ max img0.w img0.h ∧
    MIN_DIM * 9 / 10 ≤
      max (compress_image smallEnc img0 srcJ dstJ).w (compress_image smallEnc img0 srcJ dstJ).h :=
  ⟨by decide, compress_image_dim_floor smallEnc img0 srcJ dstJ (by decide)⟩

/-- C3 counterexample: at the quality floor with an oversized JPEG encode and
dimensions above the floor, the loop downscales but the next attempt keeps
quality 45; it is not reset to `JPEG_QUALITY` = 82. -/
theorem quality_reset_cex :
    SIZE_LIMIT < encodeSize bigEnc jSt ∧ jSt.fmt = Fmt.JPEG ∧
    jSt.quality = MIN_JPEG_QUALITY ∧ MIN_DIM < max jSt.w jSt.h ∧
    loopStep bigEnc jSt = Step.next (stepState bigEnc jSt) ∧
    (stepState bigEnc jSt).w = jSt.w * 9 / 10 ∧
    (stepState bigEnc jSt).h = jSt.h * 9 / 10 ∧
    (stepState bigEnc jSt).quality = MIN_JPEG_QUALITY ∧
    ¬(stepState bigEnc jSt).quality = JPEG_QUALITY := by decide

/-- C3 amended: when a JPEG encode is oversized, quality is at the floor and
the longest side exceeds `MIN_DIM`, the loop downscales both dimensions by
`SCALE_STEP` and retries with the quality unchanged (still the floor value),
not reset to the default. -/
theorem downscale_keeps_quality : ∀ (e : Enc) (s : LoopState),
    SIZE_LIMIT < encodeSize e s → s.fmt = Fmt.JPEG → s.quality ≤ MIN_JPEG_QUALITY →
    MIN_DIM < max s.w s.h →
    loopStep e s = Step.next ⟨s.w * 9 / 10, s.h * 9 / 10, s.fmt, s.quality, s.dstSuffix⟩ := by
  intro e s h1 h2 h3 h4
  have hpn : ¬(s.fmt = Fmt.PNG) := fun hp => by
    rw [h2] at hp
    exact Fmt.noConfusion hp
  have hq : ¬(s.fmt = Fmt.JPEG ∧ MIN_JPEG_QUALITY < s.quality) :=
    fun hc => absurd hc.2 (not_lt.mpr h3)
  unfold loopStep
  rw [if_neg (not_le.mpr h1), if_neg hpn, if_neg hq, if_neg (not_le.mpr h4)]

/-- C3 amended witness at a concrete input. -/
theorem downscale_keeps_quality_witness :
    SIZE_LIMIT < encodeSize bigEnc jSt ∧
    loopStep bigEnc jSt =
      Step.next ⟨jSt.w * 9 / 10, jSt.h * 9 / 10, jSt.fmt, jSt.quality, jSt.dstSuffix⟩ :=
  ⟨by decide, downscale_keeps_quality bigEnc jSt (by decide) rfl (by decide) (by decide)⟩

/-- C4: the adaptive loop terminates on every input: `loopMeasure s + 1`
units of fuel always produce a written result, and `runLoop` is that result
(exactly one write per call). -/
theorem compress_loop_terminates : ∀ (e : Enc) (s : LoopState),
    loopFuel e (loopMeasure s + 1) s = some (runLoop e s) :=
  fun e s => runLoop_spec e s

/-- C7: an oversized PNG encode switches the loop permanently to JPEG at the
default starting quality (with the destination suffix rewritten), and from
any JPEG state every later state and the final result stay JPEG. -/
theorem png_switch_permanent :
    (∀ (e : Enc) (s : LoopState), SIZE_LIMIT < encodeSize e s → s.fmt = Fmt.PNG →
      loopStep e s = Step.next ⟨s.w, s.h, Fmt.JPEG, JPEG_QUALITY, ".jpg"⟩) ∧
    (∀ (e : Enc) (s s' : LoopState), s.fmt = Fmt.JPEG → loopStep e s = Step.next s' →
      s'.fmt = Fmt.JPEG) ∧
    (∀ (e : Enc) (fuel : Nat) (s : LoopState) (r : LoopResult), s.fmt = Fmt.JPEG →
      loopFuel e fuel s = some r → r.fmt = Fmt.JPEG) := by
  refine ⟨?_, ?_, ?_⟩
  · intro e s h1 h2
    unfold loopStep
    rw [if_neg (not_le.mpr h1), if_pos h2]
  · intro e s s' hf hn
    exact ((loopStep_next_inv e s s' hn).2.2.2.1 hf).1
  · intro e fuel s r hf h
    exact loopFuel_fmt e fuel s r h hf

/-- C7 witness at concrete inputs. -/
theorem png_switch_permanent_witness :
    SIZE_LIMIT < encodeSize bigEnc pngSt ∧
    loopStep bigEnc pngSt = Step.next ⟨900, 900, Fmt.JPEG, JPEG_QUALITY, ".jpg"⟩ ∧
    (runLoop bigEnc jSt).fmt = Fmt.JPEG := by
  refine ⟨by decide, ?_, ?_⟩
  · exact png_switch_permanent.1 bigEnc pngSt (by decide) rfl
  · exact png_switch_permanent.2.2 bigEnc (loopMeasure jSt + 1) jSt (runLoop bigEnc jSt) rfl
      (runLoop_spec bigEnc jSt)

/-- C8 counterexample: Pillow mode "LA" carries an alpha channel, yet
`compress_image` leaves it unconverted (the code tests only "P" and "RGBA"). -/
theorem mode_normalize_cex :
    "LA" ∈ paletteOrAlphaModes ∧ imgLA.mode = "LA" ∧
    (compress_image smallEnc imgLA srcPng dstPng).mode = "LA" ∧
    ¬(compress_image smallEnc imgLA srcPng dstPng).mode = "RGB" := by decide

/-- C8 amended: exactly the modes "P" and "RGBA" are converted to RGB before
resizing and encoding; every other mode (including other alpha-bearing modes
such as "LA") is left unconverted. -/
theorem mode_normalize_amended : ∀ (e : Enc) (img : SrcImage) (src dst : FPath),
    ((img.mode = "P" ∨ img.mode = "RGBA") → (compress_image e img src dst).mode = "RGB") ∧
    (¬img.mode = "P" → ¬img.mode = "RGBA" → (compress_image e img src dst).mode = img.mode) := by
  intro e img src dst
  constructor
  · intro h
    show normMode img = "RGB"
    unfold normMode
    rw [if_pos h]
  · intro h1 h2
    show normMode img = img.mode
    unfold normMode
    rw [if_neg (fun hc => Or.elim hc h1 h2)]

/-- C8 amended witness at concrete inputs. -/
theorem mode_normalize_amended_witness :
    (compress_image smallEnc imgP srcPng dstPng).mode = "RGB" ∧
    (compress_image smallEnc imgL srcPng dstPng).mode = "L" := by
  constructor
  · exact (mode_normalize_amended smallEnc imgP srcPng dstPng).1 (Or.inl rfl)
  · exact (mode_normalize_amended smallEnc imgL srcPng dstPng).2 (by decide) (by decide)

theorem underDir_append (d l : List String) : underDir d (d ++ l) = true := by
  induction d with
  | nil => rfl
  | cons a d ih =>
    show (decide (a = a) && underDir d (d ++ l)) = true
    rw [ih]
    simp

theorem lookupList_filter (pr : FPath × Nat → Bool) (p : FPath)
    (hp : ∀ c, pr (p, c) = true) :
    ∀ l : List (FPath × Nat), lookupList (l.filter pr) p = lookupList l p := by
  intro l
  induction l with
  | nil => rfl
  | cons qc rest ih =>
    rcases qc with ⟨q, c⟩
    rw [List.filter_cons]
    by_cases hq : q = p
    · subst hq
      rw [if_pos (hp c)]
      simp [lookupList]
    · by_cases hpr : pr (q, c) = true
      · rw [if_pos hpr]
        simp only [lookupList]
        rw [if_neg hq, if_neg hq]
        exact ih
      · rw [if_neg hpr, ih]
        simp only [lookupList]
        rw [if_neg hq]

theorem lookupList_removeFile (q p : FPath) (h : ¬q = p) :
    ∀ l : List (FPath × Nat), lookupList (removeFile l q) p = lookupList l p := by
  intro l
  induction l with
  | nil => rfl
  | cons ac rest ih =>
    rcases ac with ⟨a, c⟩
    simp only [removeFile]
    by_cases ha : a = q
    · rw [if_pos ha, ih]
      subst ha
      simp only [lookupList]
      rw [if_neg h]
    · rw [if_neg ha]
      simp only [lookupList]
      by_cases hap : a = p
      · rw [if_pos hap, if_pos hap]
      · rw [if_neg hap, if_neg hap]
        exact ih

theorem lookup_write_ne (fs : FS) (q : FPath) (c : Nat) (p : FPath) (h : ¬q = p) :
    (fs.write q c).lookup p = fs.lookup p := by
  show lookupList ((q, c) :: removeFile fs.files q) p = lookupList fs.files p
  simp only [lookupList]
  rw [if_neg h]
  exact lookupList_removeFile q p h fs.files

theorem lookup_clear_output (outDir : List String) (fs : FS) (p : FPath)
    (hp : underDir outDir p.dirs = false) :
    (clear_output outDir fs).lookup p = fs.lookup p := by
  unfold clear_output
  by_cases he : fs.dirExists outDir = true
  · rw [if_pos he]
    refine lookupList_filter _ p ?_ fs.files
    intro c
    show (!(underDir outDir p.dirs)) = true
    rw [hp]
    rfl
  · rw [if_neg he]

theorem dstAfterChoice_dirs (img : SrcImage) (src dst : FPath) :
    (dstAfterChoice img src dst).dirs = dst.dirs := by
  unfold dstAfterChoice
  by_cases h : fmtAttr img = some "JPEG" ∨ lowerStr src.suffix ∈ jpegExts
  · rw [if_pos h]
  · rw [if_neg h]

theorem dstAfterChoice_stem (img : SrcImage) (src dst : FPath) :
    (dstAfterChoice img src dst).stem = dst.stem := by
  unfold dstAfterChoice
  by_cases h : fmtAttr img = some "JPEG" ∨ lowerStr src.suffix ∈ jpegExts
  · rw [if_pos h]
  · rw [if_neg h]

theorem dstAfterChoice_suffix (img : SrcImage) (src dst : FPath) :
    (dstAfterChoice img src dst).suffix = dst.suffix ∨
    (dstAfterChoice img src dst).suffix = ".jpg" := by
  unfold dstAfterChoice
  by_cases h : fmtAttr img = some "JPEG" ∨ lowerStr src.suffix ∈ jpegExts
  · rw [if_pos h]
    exact Or.inr rfl
  · rw [if_neg h]
    exact Or.inl rfl

theorem compress_written_dirs (e : Enc) (img : SrcImage) (src dst : FPath) :
    (compress_image e img src dst).written.dirs = dst.dirs :=
  dstAfterChoice_dirs img src dst

theorem compress_written_stem (e : Enc) (img : SrcImage) (src dst : FPath) :
    (compress_image e img src dst).written.stem = dst.stem :=
  dstAfterChoice_stem img src dst

theorem compress_written_suffix (e : Enc) (img : SrcImage) (src dst : FPath) :
    (compress_image e img src dst).written.suffix = dst.suffix ∨
    (compress_image e img src dst).written.suffix = ".jpg" := by
  have hs := loopFuel_dstSuffix e (loopMeasure (startState img src dst) + 1)
    (startState img src dst) (runLoop e (startState img src dst))
    (runLoop_spec e (startState img src dst))
  rcases hs with hs | hs
  · rcases dstAfterChoice_suffix img src dst with hd | hd
    · left
      show (runLoop e (startState img src dst)).dstSuffix = dst.suffix
      rw [hs]
      exact hd
    · right
      show (runLoop e (startState img src dst)).dstSuffix = ".jpg"
      rw [hs]
      exact hd
  · exact Or.inr hs

theorem processFile_eq (o : Pillow) (srcDir outDir : List String) (fs : FS)
    (p : FPath) (c : Nat) :
    processFile o srcDir outDir fs (p, c) =
      if isRelTo outDir p then fs
      else fs.write (writtenPath o srcDir outDir p c) (writtenBytes o srcDir outDir p c) := by
  simp only [processFile, writtenPath, writtenBytes, copy_through]
  split_ifs <;> rfl

theorem writtenPath_dirs (o : Pillow) (srcDir outDir : List String) (p : FPath) (c : Nat) :
    (writtenPath o srcDir outDir p c).dirs = outDir ++ p.dirs.drop srcDir.length := by
  unfold writtenPath
  by_cases h : lowerStr p.suffix ∈ rasterExts
  · rw [if_pos h]
    exact compress_written_dirs _ _ p _
  · rw [if_neg h]

theorem writtenPath_stem (o : Pillow) (srcDir outDir : List String) (p : FPath) (c : Nat) :
    (writtenPath o srcDir outDir p c).stem = p.stem := by
  unfold writtenPath
  by_cases h : lowerStr p.suffix ∈ rasterExts
  · rw [if_pos h]
    exact compress_written_stem _ _ p _
  · rw [if_neg h]

theorem writtenPath_suffix_or (o : Pillow) (srcDir outDir : List String) (p : FPath) (c : Nat) :
    (writtenPath o srcDir outDir p c).suffix = p.suffix ∨
    (writtenPath o srcDir outDir p c).suffix = ".jpg" := by
  unfold writtenPath
  by_cases h : lowerStr p.suffix ∈ rasterExts
  · rw [if_pos h]
    exact compress_written_suffix _ _ p _
  · rw [if_neg h]
    exact Or.inl rfl

theorem writtenPath_nonraster (o : Pillow) (srcDir outDir : List String) (p : FPath) (c : Nat)
    (h : ¬lowerStr p.suffix ∈ rasterExts) :
    writtenPath o srcDir outDir p c = ⟨outDir ++ p.dirs.drop srcDir.length, p.stem, p.suffix⟩ := by
  unfold writtenPath
  rw [if_neg h]

theorem lookup_processFile (o : Pillow) (srcDir outDir : List String) (fs : FS)
    (pc : FPath × Nat) (p : FPath) (hp : underDir outDir p.dirs = false) :
    (processFile o srcDir outDir fs pc).lookup p = fs.lookup p := by
  rcases pc with ⟨q, c⟩
  rw [processFile_eq o srcDir outDir fs q c]
  by_cases h1 : isRelTo outDir q = true
  · rw [if_pos h1]
  · rw [if_neg h1]
    apply lookup_write_ne
    intro he
    have hd := writtenPath_dirs o srcDir outDir q c
    rw [he] at hd
    have ht : underDir outDir p.dirs = true := by
      rw [hd]
      exact underDir_append outDir _
    rw [ht] at hp
    exact Bool.noConfusion hp

theorem lookup_foldl (o : Pillow) (srcDir outDir : List String) (p : FPath)
    (hp : underDir outDir p.dirs = false) :
    ∀ (l : List (FPath × Nat)) (acc : FS),
      (l.foldl (processFile o srcDir outDir) acc).lookup p = acc.lookup p := by
  intro l
  induction l with
  | nil => intro acc; rfl
  | cons pc rest ih =>
    intro acc
    rw [List.foldl_cons, ih, lookup_processFile o srcDir outDir acc pc p hp]

theorem process_directory_skip (o : Pillow) (fs : FS) (srcDir outDir : List String)
    (label : String) (h : fs.dirExists srcDir = false) :
    process_directory o fs srcDir outDir label = (fs, [Msg.skipped label]) := by
  unfold process_directory
  rw [if_pos h]

/-- C5 counterexample: a source file `s/a.jpeg` is written to `o/a.jpg`, not
to the equivalent relative path `o/a.jpeg` with its extension unchanged. -/
theorem mirrored_name_cex :
    FS.lookup fsA pA = some 5 ∧ pA.suffix = ".jpeg" ∧
    FS.lookup (process_directory oracleA fsA srcD outD "site images").1
      ⟨["o"], "a", ".jpeg"⟩ = none ∧
    FS.lookup (process_directory oracleA fsA srcD outD "site images").1
      ⟨["o"], "a", ".jpg"⟩ = some 1 := by decide

/-- C5 amended: every processed file is written under the destination root at
its source-relative directory with its stem unchanged; the suffix is also
unchanged except that raster files may be written with suffix ".jpg" (when
the source is detected as JPEG or an oversized PNG switches format);
non-raster files keep the whole name. -/
theorem mirrored_path_amended : ∀ (o : Pillow) (srcDir outDir : List String) (fs : FS)
    (p : FPath) (c : Nat),
    processFile o srcDir outDir fs (p, c) =
      (if isRelTo outDir p then fs
       else fs.write (writtenPath o srcDir outDir p c) (writtenBytes o srcDir outDir p c)) ∧
    (writtenPath o srcDir outDir p c).dirs = outDir ++ p.dirs.drop srcDir.length ∧
    (writtenPath o srcDir outDir p c).stem = p.stem ∧
    ((writtenPath o srcDir outDir p c).suffix = p.suffix ∨
      (writtenPath o srcDir outDir p c).suffix = ".jpg") ∧
    (¬lowerStr p.suffix ∈ rasterExts →
      writtenPath o srcDir outDir p c =
        ⟨outDir ++ p.dirs.drop srcDir.length, p.stem, p.suffix⟩) :=
  fun o srcDir outDir fs p c =>
    ⟨processFile_eq o srcDir outDir fs p c, writtenPath_dirs o srcDir outDir p c,
     writtenPath_stem o srcDir outDir p c, writtenPath_suffix_or o srcDir outDir p c,
     writtenPath_nonraster o srcDir outDir p c⟩

/-- C5 amended witness at a concrete non-raster input. -/
theorem mirrored_path_amended_witness :
    writtenPath oracleA srcD outD pSvg 3 =
      ⟨outD ++ pSvg.dirs.drop srcD.length, pSvg.stem, pSvg.suffix⟩ :=
  (mirrored_path_amended oracleA srcD outD fsA pSvg 3).2.2.2.2 (by decide)

/-- C9: a missing source root makes `process_directory` a no-op that emits a
skip notice, and `main` still processes the remaining target on the unchanged
filesystem. -/
theorem missing_source_skips : ∀ (o : Pillow) (fs : FS),
    FS.dirExists fs SRC_DIR = false →
    process_directory o fs SRC_DIR OUT_DIR "site images" = (fs, [Msg.skipped "site images"]) ∧
    main o fs =
      ((process_directory o fs PROJECTS_SRC_DIR PROJECTS_OUT_DIR "project media").1,
        Msg.skipped "site images" ::
          (process_directory o fs PROJECTS_SRC_DIR PROJECTS_OUT_DIR "project media").2) := by
  intro o fs h
  have hskip := process_directory_skip o fs SRC_DIR OUT_DIR "site images" h
  refine ⟨hskip, ?_⟩
  unfold main
  rw [hskip]
  rfl

/-- C9 witness at a concrete input. -/
theorem missing_source_skips_witness :
    FS.dirExists emptyFS SRC_DIR = false ∧
    process_directory oracleA emptyFS SRC_DIR OUT_DIR "site images" =
      (emptyFS, [Msg.skipped "site images"]) :=
  ⟨by decide, (missing_source_skips oracleA emptyFS (by decide)).1⟩

/-- C10: a `process_directory` run never changes any file that is under the
source root but not under the destination root: `clear_output` removes only
files under the destination, and every write targets a path under the
destination. -/
theorem frame_preserves_sources : ∀ (o : Pillow) (fs : FS) (srcDir outDir : List String)
    (label : String) (p : FPath),
    underDir srcDir p.dirs = true → underDir outDir p.dirs = false →
    FS.lookup (process_directory o fs srcDir outDir label).1 p = FS.lookup fs p := by
  intro o fs srcDir outDir label p _ hout
  unfold process_directory
  by_cases h : fs.dirExists srcDir = false
  · rw [if_pos h]
  · rw [if_neg h]
    dsimp only
    rw [lookup_foldl o srcDir outDir p hout]
    show (clear_output outDir fs).lookup p = fs.lookup p
    exact lookup_clear_output outDir fs p hout

/-- C10 witness at a concrete input. -/
theorem frame_preserves_sources_witness :
    underDir srcD pA.dirs = true ∧ underDir outD pA.dirs = false ∧
    FS.lookup (process_directory oracleA fsA srcD outD "site images").1 pA = FS.lookup fsA pA :=
  ⟨by decide, by decide,
    frame_preserves_sources oracleA fsA srcD outD "site images" pA (by decide) (by decide)⟩

end CompressImages
